import Mathlib

/-!
# RMTGeneNet: block writer of `RunSimilarity::execute`, `RunSimilarity::parseMethods`
and the argument validation of `RunExtract::RunExtract`

Shallow embedding of `src/similarity/RunSimilarity.cpp` and `src/extract/RunExtract.cpp`.

Conventions of the embedding.

* C `int` values are `Int`.  On the domain the theorems quantify over
  (`1 ≤ num_genes`, `1 ≤ ROWS_PER_OUTPUT_FILE`, both representable as `int`) every
  intermediate `int` value of `execute` lies between `0` and `num_genes`, so no 32-bit
  wrap-around can occur and none is modelled.
* `ROWS_PER_OUTPUT_FILE` is a macro whose definition is not part of the sources at hand;
  it is a parameter of the model.
* The similarity kernels (`PearsonSimilarity`, `MISimilarity`, `SpearmanSimilarity`
  applied to `new PairWiseSet(ematrix, j, k)`) are not part of the sources at hand either;
  the `float` each of them yields for the pair `(j, k)` is a parameter.
* The C type `float` is an arbitrary type `F`; the local `float one = 1.0` is the
  parameter `one`.
* A binary file is the list of the 4-byte words written to it, in the order of the
  `fwrite` calls (`sizeof(int) = sizeof(float) = 4`); `fopen` and `fwrite` are taken to
  succeed.
* The line numbers in the comments are those of the two `.cpp` files.
-/

namespace RMTGeneNet

/-! ## Data model -/

/-- One 4-byte item written by `fwrite`: an `int` or a `float`. -/
inductive Word (F : Type) where
  | int32 (v : Int)
  | float (x : F)
deriving DecidableEq, Repr

/-- A file opened with `fopen(outfilename, "wb")`: its path and the words written so far. -/
structure OutFile (F : Type) where
  path : String
  data : List (Word F)
deriving DecidableEq, Repr

/-- The call `fwrite(&w, 4, 1, f)`: append one word. -/
def OutFile.fwrite {F : Type} (f : OutFile F) (w : Word F) : OutFile F :=
  { f with data := f.data ++ [w] }

/-- The values taken by `v` in `for (v = lo; v < hi; v++)`. -/
def forRange (lo hi : Int) : List Int :=
  (List.range (hi - lo).toNat).map (fun (i : Nat) => lo + (i : Int))

/-- The members of `RunSimilarity` (and of its `ematrix`) that `execute` reads.
`method` is the array `method[0 .. num_methods-1]`, so `num_methods = method.length`.
`score_pc j k` is `(float) pws->getScore()` of a `PearsonSimilarity` run on
`PairWiseSet(ematrix, j, k)`; likewise `score_mi` and `score_sc`. -/
structure RunSimilarity (F : Type) where
  method : List String
  num_genes : Int
  fileprefix : String
  score_pc : Int → Int → F
  score_mi : Int → Int → F
  score_sc : Int → Int → F

/-- Contents of the locals of `execute` that are read before being assigned:
`char outdir[100]` (read by `stat`/`sprintf` when no method name matched) and
`float score` (written to the file when no method name matched). -/
structure Uninit (F : Type) where
  outdir : String
  score : F

/-- The state threaded through the loops of `execute`.
* `outfiles`: the array `outfiles[0 .. num_methods-1]` of the block being written;
* `closed`: for every finished iteration of the `curr_bin` loop, the files it closed;
* `pwsets`: the pairs `(j, k)` for which `new PairWiseSet(ematrix, j, k)` ran, in order;
* `n_comps`: the counter of the same name;
* `dirs`: the directories the first loop passed to `stat`/`mkdir`, in order. -/
structure ExecState (F : Type) where
  outfiles : List (OutFile F)
  closed : List (List (OutFile F))
  pwsets : List (Int × Int)
  n_comps : Int
  dirs : List String
deriving DecidableEq, Repr

/-! ## `RunSimilarity::execute` -/

/-- Line 319: `num_bins = (num_genes - 1) / ROWS_PER_OUTPUT_FILE` (C division truncates). -/
def num_bins (num_genes R : Int) : Int := Int.tdiv (num_genes - 1) R

/-- Line 338: `total_comps = num_genes * (num_genes - 1) / 2` in `long long`. -/
def total_comps (num_genes : Int) : Int := Int.tdiv (num_genes * (num_genes - 1)) 2

/-- Lines 323-331: the three `strcmp`/`strcpy` statements run for one method name. -/
def setOutdir (outdir : String) (m : String) : String :=
  let o1 := if m = "sc" then "./Spearman" else outdir
  let o2 := if m = "pc" then "./Pearson" else o1
  if m = "mi" then "./MI" else o2

/-- Lines 322-336: the loop over the methods that fills the single buffer `outdir` and
makes sure that directory exists.  Returns the final `outdir` and the directories visited. -/
def ensureDirs (outdir0 : String) (method : List String) : String × List String :=
  method.foldl (fun (p : String × List String) m =>
    let o := setOutdir p.1 m
    (o, p.2 ++ [o])) (outdir0, [])

/-- Lines 346-351: the exclusive upper row bound of block `curr_bin`. -/
def bin_rows (num_genes R curr_bin : Int) : Int :=
  if curr_bin < num_bins num_genes R then (curr_bin + 1) * R else num_genes

/-- Line 364: `num_lines = bin_rows - curr_bin * ROWS_PER_OUTPUT_FILE`. -/
def num_lines (num_genes R curr_bin : Int) : Int :=
  bin_rows num_genes R curr_bin - curr_bin * R

/-- Line 357: `sprintf(outfilename, "%s/%s.%s%d.bin", outdir, fileprefix, method[i], curr_bin)`. -/
def outfilename (outdir : String) ( fileprefix : String) (m : String) (curr_bin : Int) : String :=
  outdir ++ "/" ++ fileprefix ++ "." ++ m ++ toString curr_bin ++ ".bin"

/-- Lines 354-366: open one file per method and write the two header words. -/
def openFiles {F : Type} (rs : RunSimilarity F) (R : Int) (outdir : String) (curr_bin : Int) :
    List (OutFile F) :=
  rs.method.map (fun m =>
    { path := outfilename outdir rs.fileprefix m curr_bin
      data := [Word.int32 rs.num_genes, Word.int32 (num_lines rs.num_genes R curr_bin)] })

/-- Lines 387-410: the value of `score` after the dispatch loop over the methods; every
matching method overwrites it, so the last matching method wins. -/
def computeScore {F : Type} (rs : RunSimilarity F) (score0 : F) (j k : Int) : F :=
  rs.method.foldl (fun score m =>
    if m = "pc" then rs.score_pc j k
    else if m = "mi" then rs.score_mi j k
    else if m = "sc" then rs.score_sc j k
    else score) score0

/-- Line 412: `fwrite(&score, sizeof(float), 1, outfiles[0])`. -/
def fwriteFirst {F : Type} (w : Word F) : List (OutFile F) → List (OutFile F)
  | [] => []
  | f :: fs => f.fwrite w :: fs

/-- Lines 373-412: the body of the `k` loop for row `j`. -/
def cellStep {F : Type} (rs : RunSimilarity F) (one : F) (u : Uninit F) (j : Int)
    (st : ExecState F) (k : Int) : ExecState F :=
  if j = k then
    { st with
      n_comps := st.n_comps + 1
      outfiles := st.outfiles.map (fun f => f.fwrite (Word.float one)) }
  else
    { st with
      n_comps := st.n_comps + 1
      pwsets := st.pwsets ++ [(j, k)]
      outfiles := fwriteFirst (Word.float (computeScore rs u.score j k)) st.outfiles }

/-- Line 372: `for (int k = 0; k <= j; k++)`. -/
def rowStep {F : Type} (rs : RunSimilarity F) (one : F) (u : Uninit F)
    (st : ExecState F) (j : Int) : ExecState F :=
  (forRange 0 (j + 1)).foldl (cellStep rs one u j) st

/-- Lines 343-427: the body of the `curr_bin` loop: open the files, write the rows of the
block, close the files. -/
def binStep {F : Type} (rs : RunSimilarity F) (R : Int) (one : F) (u : Uninit F)
    (outdir : String) (st : ExecState F) (curr_bin : Int) : ExecState F :=
  let st1 := { st with outfiles := openFiles rs R outdir curr_bin }
  let st2 := (forRange (curr_bin * R) (bin_rows rs.num_genes R curr_bin)).foldl
    (rowStep rs one u) st1
  { st2 with closed := st2.closed ++ [st2.outfiles], outfiles := [] }

/-- The method `RunSimilarity::execute` (lines 294-433), with `ROWS_PER_OUTPUT_FILE = R`. -/
def execute {F : Type} (rs : RunSimilarity F) (R : Int) (one : F) (u : Uninit F) :
    ExecState F :=
  let d := ensureDirs u.outdir rs.method
  (forRange 0 (num_bins rs.num_genes R + 1)).foldl (binStep rs R one u d.1)
    { outfiles := [], closed := [], pwsets := [], n_comps := 0, dirs := d.2 }

/-! ## Closed form of the loops of `execute` (used to state the results) -/

/-- The words one pass of the `k` loop for row `j` appends to `outfiles[0]`: the scores for
`k = 0 .. j-1` and then the diagonal `one`. -/
def rowWords {F : Type} (rs : RunSimilarity F) (one : F) (u : Uninit F) (j : Int) :
    List (Word F) :=
  (forRange 0 j).map (fun k => Word.float (computeScore rs u.score j k)) ++ [Word.float one]

/-- Effect of writing the rows `js` on the array of open files: `outfiles[0]` receives
the full rows, every other file one diagonal word per row. -/
def blockAppend {F : Type} (rs : RunSimilarity F) (one : F) (u : Uninit F) (js : List Int) :
    List (OutFile F) → List (OutFile F)
  | [] => []
  | f :: fs =>
    { path := f.path, data := f.data ++ js.flatMap (rowWords rs one u) } ::
      fs.map (fun g => { path := g.path, data := g.data ++ js.map (fun _ => Word.float one) })

/-- Closed form of the files closed by iteration `curr_bin` of the outer loop. -/
def blockFiles {F : Type} (rs : RunSimilarity F) (R : Int) (one : F) (u : Uninit F)
    (curr_bin : Int) : List (OutFile F) :=
  blockAppend rs one u (forRange (curr_bin * R) (bin_rows rs.num_genes R curr_bin))
    (openFiles rs R (ensureDirs u.outdir rs.method).1 curr_bin)

/-- Appending words to `outfiles[0]` only. -/
def appendFirst {F : Type} (ws : List (Word F)) : List (OutFile F) → List (OutFile F)
  | [] => []
  | f :: fs => { path := f.path, data := f.data ++ ws } :: fs

/-- The row count the block partition assigns to block `b` when `G` rows are cut every `R`
rows: `min ((b+1)*R) G - b*R`. -/
def blockRows (G R : Int) (b : Nat) : Int := min ((b + 1) * R) G - b * R

/-- The word stored at byte offset `off` of a file (every word occupies 4 bytes). -/
def OutFile.wordAtByte {F : Type} (f : OutFile F) (off : Int) : Option (Word F) :=
  if 0 ≤ off ∧ off % 4 = 0 then f.data[(off / 4).toNat]? else none

/-! ## `RunSimilarity::parseMethods` -/

/-- How a call of `parseMethods` ends.
* `accepted method`: it returns; `method` is the filled part of the array and
  `num_methods = method.length`;
* `exit_unknown`: `exit(-1)` at line 267 (a stored name is none of `pc`, `mi`, `sc`);
* `exit_repeated`: `exit(-1)` at line 273 (a stored name equals an earlier one);
* `out_of_bounds`: the splitting loop stored to `method[i]` with `i ≥ 10`, outside the
  ten slots allocated at line 77 (undefined behaviour). -/
inductive ParseOutcome where
  | accepted (method : List String)
  | exit_unknown
  | exit_repeated
  | out_of_bounds
deriving DecidableEq, Repr

/-- Line 77: `method = malloc(sizeof(char *) * 10)`. -/
def method_slots : Nat := 10

/-- Lines 246-258, the splitting loop.  `rest` is what is left of `methods_str`, `cur` the
characters passed since the last comma and `i` the index of the slot being filled.
`strstr(methods_str, ",")` finds the next comma, so each pass copies one maximal
comma-free segment.

For a segment that ends at a comma the code does
`method[i] = malloc(n + 1); strncpy(method[i], methods_str, n)` with `n` the length of the
segment.  `strncpy` stops after `n` characters without writing a terminating NUL, and
`malloc` does not initialise the block, so the string later read from `method[i]` is the
segment followed by whatever non-NUL bytes the block holds from offset `n` on: `heap i`
(empty exactly when the byte at offset `n` happens to be NUL).
The last segment is copied by `strcpy`, which does write the terminator. -/
def splitMethods (heap : Nat → List Char) : Nat → List Char → List Char → List String
  | _, cur, [] => [String.mk cur]
  | i, cur, c :: rest =>
    if c = ',' then String.mk (cur ++ heap i) :: splitMethods heap (i + 1) [] rest
    else splitMethods heap i (cur ++ [c]) rest

/-- Lines 262-276, the validation loop; `seen` is `method[0 .. i-1]`.
Returns the `exit` taken, or `none` when the loop runs to its end. -/
def checkMethods : List String → List String → Option ParseOutcome
  | _, [] => none
  | seen, m :: rest =>
    if m ≠ "pc" ∧ m ≠ "mi" ∧ m ≠ "sc" then some ParseOutcome.exit_unknown
    else if m ∈ seen then some ParseOutcome.exit_repeated
    else checkMethods (seen ++ [m]) rest

/-- The method `RunSimilarity::parseMethods` (lines 242-277). -/
def parseMethods (heap : Nat → List Char) (methods_str : String) : ParseOutcome :=
  let method := splitMethods heap 0 [] methods_str.data
  if method_slots < method.length then ParseOutcome.out_of_bounds
  else
    match checkMethods [] method with
    | some e => e
    | none => ParseOutcome.accepted method

/-- A heap whose fresh blocks are zero-filled: no stray bytes follow a copied segment. -/
def zeroHeap : Nat → List Char := fun _ => []

/-- A heap whose fresh blocks hold the byte `x` (for instance recycled or perturbed
memory). -/
def dirtyHeap : Nat → List Char := fun _ => ['x']

/-! ## `RunExtract::RunExtract` and `RunExtract::execute` -/

/-- A value of the C type `float`: not-a-number, an infinity, or the finite value
`mantissa * 2 ^ exponent`. -/
inductive CFloat where
  | nan
  | inf (negative : Bool)
  | finite (mantissa : Int) (exponent : Int)
deriving DecidableEq, Repr

/-- The C comparison `x > 0`. -/
def CFloat.gt_zero : CFloat → Bool
  | CFloat.nan => false
  | CFloat.inf negative => !negative
  | CFloat.finite mantissa _ => decide (0 < mantissa)

/-- The members of `RunExtract`, with the values they hold when the `getopt_long` loop
(lines 62-154) is left.  `NULL` pointers are `none`.  The constructor presets
`headers = rows = cols = quiet = 0`, `x_coord = y_coord = -1`, `gene1 = gene2 = NULL`
and `th = 0` (lines 46-55); options overwrite these. -/
structure RunExtract where
  cmethod : Option String
  rows : Int
  cols : Int
  headers : Int
  omit_na : Int
  na_val : Option String
  func : String
  infilename : Option String
  th : CFloat
  x_coord : Int
  y_coord : Int
  gene1 : Option String
  gene2 : Option String
  quiet : Int
deriving DecidableEq

/-- What `RunExtract` uses of the expression matrix (class `EMatrix`, not among the sources
at hand): `getGeneCoord`, the row index of a gene name or a negative value. -/
structure EMatrix where
  getGeneCoord : String → Int

/-- The places where the constructor of `RunExtract` leaves through `exit(-1)`, in source
order; `ematrix_failed` stands for `new EMatrix(...)` at line 196 not returning. -/
inductive ExtractExit where
  | no_method
  | bad_rows
  | bad_cols
  | no_na_val
  | th_and_coords
  | one_gene
  | no_ematrix
  | ematrix_failed
  | gene1_not_found
  | gene2_not_found
  | bad_coords
deriving DecidableEq, Repr

/-- Lines 156-193: the checks made before the expression matrix is loaded. -/
def RunExtract.checkArgs (a : RunExtract) : Except ExtractExit Unit :=
  if a.cmethod = none then Except.error ExtractExit.no_method
  else if a.rows < 0 ∨ a.rows = 0 then Except.error ExtractExit.bad_rows
  else if a.cols < 0 ∨ a.cols = 0 then Except.error ExtractExit.bad_cols
  else if a.omit_na ≠ 0 ∧ a.na_val = none then Except.error ExtractExit.no_na_val
  else if a.th.gt_zero = true ∧ (a.x_coord > 0 ∨ a.y_coord > 0) then
    Except.error ExtractExit.th_and_coords
  else if (a.gene1 ≠ none ∧ a.gene2 = none) ∨ (a.gene1 = none ∧ a.gene2 ≠ none) then
    Except.error ExtractExit.one_gene
  else if a.infilename = none then Except.error ExtractExit.no_ematrix
  else Except.ok ()

/-- Lines 198-212: when both gene names are given, `x_coord` and `y_coord` are replaced by
the rows `getGeneCoord` returns, and a negative row ends the program. -/
def RunExtract.lookupGenes (a : RunExtract) (ematrix : EMatrix) :
    Except ExtractExit RunExtract :=
  match a.gene1, a.gene2 with
  | some g1, some g2 =>
    let a1 := { a with x_coord := ematrix.getGeneCoord g1, y_coord := ematrix.getGeneCoord g2 }
    if a1.x_coord < 0 then Except.error ExtractExit.gene1_not_found
    else if a1.y_coord < 0 then Except.error ExtractExit.gene2_not_found
    else Except.ok a1
  | _, _ => Except.ok a

/-- Lines 214-219: the check of the coordinates. -/
def RunExtract.checkCoords (a : RunExtract) : Except ExtractExit RunExtract :=
  if (a.x_coord ≥ 1 ∧ a.y_coord < 1) ∨ (a.x_coord < 1 ∧ a.y_coord ≥ 1) then
    Except.error ExtractExit.bad_coords
  else Except.ok a

/-- The constructor `RunExtract::RunExtract` from line 156 on.  `newEMatrix` stands for the
constructor of `EMatrix` called at line 196 (`none`: it does not return). -/
def RunExtract.construct (newEMatrix : RunExtract → Option EMatrix) (a : RunExtract) :
    Except ExtractExit RunExtract :=
  match a.checkArgs with
  | Except.error e => Except.error e
  | Except.ok _ =>
    match newEMatrix a with
    | none => Except.error ExtractExit.ematrix_failed
    | some ematrix =>
      match a.lookupGenes ematrix with
      | Except.error e => Except.error e
      | Except.ok a1 => a1.checkCoords

/-- The two branches of `RunExtract::execute`. -/
inductive ExtractMode where
  | writeNetwork
  | getPosition
deriving DecidableEq, Repr

/-- Modelled from the spec: `SimMatrixBinary::getThreshold` (the class `SimMatrixBinary` is
not among the sources at hand) returns the threshold `th` the object was constructed with
at line 247; the spec's threshold mode is the one with `t > 0`. -/
def getThreshold (a : RunExtract) : CFloat := a.th

/-- The method `RunExtract::execute` (lines 245-259): which method of the
`SimMatrixBinary` built from the members is called. -/
def RunExtract.execute (a : RunExtract) : ExtractMode :=
  if (getThreshold a).gt_zero = true then ExtractMode.writeNetwork
  else ExtractMode.getPosition

/-! ## Concrete inputs -/

/-- A concrete run: three genes, the single method `pc`, file base name `em`. -/
def run3 : RunSimilarity Int :=
  { method := ["pc"], num_genes := 3, fileprefix := "em"
    score_pc := fun j k => 100 + 10 * j + k
    score_mi := fun j k => 200 + 10 * j + k
    score_sc := fun j k => 300 + 10 * j + k }

/-- Arbitrary contents for the unassigned locals of the concrete runs. -/
def uninit3 : Uninit Int := { outdir := "?", score := -7 }

/-- Two genes, the two methods `pc` and `sc`, file base name `em`. -/
def runTwoMethods : RunSimilarity Int :=
  { method := ["pc", "sc"], num_genes := 2, fileprefix := "em"
    score_pc := fun j k => 100 + 10 * j + k
    score_mi := fun j k => 200 + 10 * j + k
    score_sc := fun j k => 300 + 10 * j + k }

/-- An expression matrix with the genes `g0`, `g1`, `g2` in rows 0, 1, 2. -/
def ematrix3 : EMatrix :=
  { getGeneCoord := fun g =>
      if g = "g0" then 0 else if g = "g1" then 1 else if g = "g2" then 2 else -1 }

/-- The members after `extract --method pc --ematrix em.txt --rows 3 --cols 5`: no
threshold, no coordinates, no gene names. -/
def argsNoSelection : RunExtract :=
  { cmethod := some "pc", rows := 3, cols := 5, headers := 0, omit_na := 0, na_val := none
    func := "none", infilename := some "em.txt", th := CFloat.finite 0 0
    x_coord := -1, y_coord := -1, gene1 := none, gene2 := none, quiet := 0 }

/-- The members after
`extract --method pc --ematrix em.txt --rows 3 --cols 5 --th 0.5 --gene1 g1 --gene2 g2`. -/
def argsThAndGenes : RunExtract :=
  { argsNoSelection with th := CFloat.finite 1 (-1), gene1 := some "g1", gene2 := some "g2" }

/-- The members after
`extract --method pc --ematrix em.txt --rows 3 --cols 5 --th 0.5 -x 2 -y 1`. -/
def argsThAndCoords : RunExtract :=
  { argsNoSelection with th := CFloat.finite 1 (-1), x_coord := 2, y_coord := 1 }

/-- The members after
`extract --method pc --ematrix em.txt --rows 3 --cols 5 --gene1 g1 --gene2 g2`
(no threshold: `th` keeps its preset `0`). -/
def argsGenes : RunExtract :=
  { argsNoSelection with gene1 := some "g1", gene2 := some "g2" }

/-- The members after
`extract --method pc --ematrix em.txt --rows 3 --cols 5 --gene1 g0 --gene2 g1`
(no threshold); `g0` is the gene of the first row. -/
def argsGeneFirstRow : RunExtract :=
  { argsNoSelection with gene1 := some "g0", gene2 := some "g1" }

/-! ## The loops of `execute` in closed form -/

theorem forRange_length (lo hi : Int) : (forRange lo hi).length = (hi - lo).toNat := by
  simp [forRange]

theorem forRange_succ (lo hi : Int) (h : lo ≤ hi) :
    forRange lo (hi + 1) = forRange lo hi ++ [hi] := by
  unfold forRange
  have e : (hi + 1 - lo).toNat = (hi - lo).toNat + 1 := by omega
  rw [e, List.range_succ, List.map_append]
  congr 1
  simp only [List.map_cons, List.map_nil, List.cons.injEq, and_true]
  omega

theorem forRange_self (lo hi : Int) (h : hi ≤ lo) : forRange lo hi = [] := by
  unfold forRange
  have e : (hi - lo).toNat = 0 := by omega
  rw [e]; rfl

theorem mem_forRange {lo hi x : Int} : x ∈ forRange lo hi ↔ lo ≤ x ∧ x < hi := by
  unfold forRange
  simp only [List.mem_map, List.mem_range]
  constructor
  · rintro ⟨i, hi', rfl⟩; omega
  · rintro ⟨h1, h2⟩
    exact ⟨(x - lo).toNat, by omega, by omega⟩

theorem forRange_cons (lo hi : Int) (h : lo < hi) :
    forRange lo hi = lo :: forRange (lo + 1) hi := by
  unfold forRange
  have e : (hi - lo).toNat = (hi - (lo + 1)).toNat + 1 := by omega
  rw [e, List.range_succ_eq_map]
  simp only [List.map_cons, List.map_map, Nat.cast_zero, add_zero, List.cons.injEq, true_and]
  apply List.map_congr_left
  intro a _
  simp only [Function.comp_apply, Nat.cast_succ]
  omega

theorem forRange_append (lo mid hi : Int) (h1 : lo ≤ mid) (h2 : mid ≤ hi) :
    forRange lo hi = forRange lo mid ++ forRange mid hi := by
  obtain ⟨n, rfl⟩ : ∃ n : Nat, mid = lo + n := ⟨(mid - lo).toNat, by omega⟩
  clear h1
  induction n with
  | zero => simp [forRange_self lo lo (le_refl _)]
  | succ n ih =>
    have h3 : lo + (n : Int) < hi := by push_cast at h2; omega
    rw [ih (by omega)]
    have e : lo + ((n + 1 : Nat) : Int) = lo + n + 1 := by push_cast; omega
    rw [e, forRange_succ lo (lo + n) (by omega), forRange_cons (lo + n) hi h3]
    simp

theorem cellStep_fold_offdiag {F : Type} (rs : RunSimilarity F) (one : F) (u : Uninit F)
    (j : Int) (ks : List Int) (hks : ∀ k ∈ ks, k ≠ j) (st : ExecState F) :
    ks.foldl (cellStep rs one u j) st =
      { outfiles := appendFirst (ks.map (fun k => Word.float (computeScore rs u.score j k)))
          st.outfiles
        closed := st.closed
        pwsets := st.pwsets ++ ks.map (fun k => (j, k))
        n_comps := st.n_comps + ks.length
        dirs := st.dirs } := by
  induction ks generalizing st with
  | nil =>
    cases st with
    | mk o c p n d => cases o <;> simp [appendFirst]
  | cons k ks ih =>
    have hk : ¬ j = k := fun h => hks k (List.mem_cons_self _ _) h.symm
    rw [List.foldl_cons, ih (fun x hx => hks x (List.mem_cons_of_mem _ hx))]
    cases st with
    | mk o c p n d =>
      cases o with
      | nil => simp [cellStep, hk, appendFirst, fwriteFirst]; omega
      | cons f fs =>
        simp [cellStep, hk, appendFirst, fwriteFirst, OutFile.fwrite]; omega

theorem rowStep_eq {F : Type} (rs : RunSimilarity F) (one : F) (u : Uninit F)
    (j : Int) (hj : 0 ≤ j) (st : ExecState F) :
    rowStep rs one u st j =
      { outfiles := blockAppend rs one u [j] st.outfiles
        closed := st.closed
        pwsets := st.pwsets ++ (forRange 0 j).map (fun k => (j, k))
        n_comps := st.n_comps + (j + 1)
        dirs := st.dirs } := by
  unfold rowStep
  rw [forRange_succ 0 j hj, List.foldl_append,
    cellStep_fold_offdiag rs one u j (forRange 0 j)
      (fun k hk => by have := (mem_forRange.1 hk).2; omega)]
  cases st with
  | mk o c p n d =>
    cases o with
    | nil => simp [cellStep, appendFirst, blockAppend, forRange_length]; omega
    | cons f fs =>
      simp [cellStep, appendFirst, blockAppend, forRange_length, OutFile.fwrite, rowWords]
      omega

theorem blockAppend_nil {F : Type} (rs : RunSimilarity F) (one : F) (u : Uninit F)
    (fs : List (OutFile F)) : blockAppend rs one u [] fs = fs := by
  cases fs with
  | nil => rfl
  | cons f fs => simp [blockAppend]

theorem blockAppend_cons {F : Type} (rs : RunSimilarity F) (one : F) (u : Uninit F)
    (j : Int) (js : List Int) (fs : List (OutFile F)) :
    blockAppend rs one u js (blockAppend rs one u [j] fs) = blockAppend rs one u (j :: js) fs := by
  cases fs with
  | nil => rfl
  | cons f fs => simp [blockAppend, List.append_assoc]

theorem rowStep_fold {F : Type} (rs : RunSimilarity F) (one : F) (u : Uninit F)
    (js : List Int) (hjs : ∀ j ∈ js, 0 ≤ j) (st : ExecState F) :
    js.foldl (rowStep rs one u) st =
      { outfiles := blockAppend rs one u js st.outfiles
        closed := st.closed
        pwsets := st.pwsets ++ js.flatMap (fun j => (forRange 0 j).map (fun k => (j, k)))
        n_comps := st.n_comps + (js.map (fun j => j + 1)).sum
        dirs := st.dirs } := by
  induction js generalizing st with
  | nil => simp [blockAppend_nil]
  | cons j js ih =>
    rw [List.foldl_cons, rowStep_eq rs one u j (hjs j (List.mem_cons_self _ _)),
      ih (fun x hx => hjs x (List.mem_cons_of_mem _ hx))]
    simp [blockAppend_cons, List.append_assoc, add_assoc]

theorem binStep_eq {F : Type} (rs : RunSimilarity F) (R : Int) (one : F) (u : Uninit F)
    (hR : 0 ≤ R) (curr_bin : Int) (hb : 0 ≤ curr_bin) (st : ExecState F) :
    binStep rs R one u (ensureDirs u.outdir rs.method).1 st curr_bin =
      { outfiles := []
        closed := st.closed ++ [blockFiles rs R one u curr_bin]
        pwsets := st.pwsets ++
          (forRange (curr_bin * R) (bin_rows rs.num_genes R curr_bin)).flatMap
            (fun j => (forRange 0 j).map (fun k => (j, k)))
        n_comps := st.n_comps +
          ((forRange (curr_bin * R) (bin_rows rs.num_genes R curr_bin)).map (fun j => j + 1)).sum
        dirs := st.dirs } := by
  unfold binStep
  simp only []
  rw [rowStep_fold rs one u _ (fun j hj => by
    have := (mem_forRange.1 hj).1
    have := mul_nonneg hb hR
    omega)]
  rfl

theorem binStep_fold {F : Type} (rs : RunSimilarity F) (R : Int) (one : F) (u : Uninit F)
    (hR : 0 ≤ R) (bs : List Int) (hbs : ∀ b ∈ bs, 0 ≤ b) (st : ExecState F) :
    bs.foldl (binStep rs R one u (ensureDirs u.outdir rs.method).1) st =
      { outfiles := if bs = [] then st.outfiles else []
        closed := st.closed ++ bs.map (blockFiles rs R one u)
        pwsets := st.pwsets ++ bs.flatMap (fun b =>
          (forRange (b * R) (bin_rows rs.num_genes R b)).flatMap
            (fun j => (forRange 0 j).map (fun k => (j, k))))
        n_comps := st.n_comps + (bs.map (fun b =>
          ((forRange (b * R) (bin_rows rs.num_genes R b)).map (fun j => j + 1)).sum)).sum
        dirs := st.dirs } := by
  induction bs generalizing st with
  | nil => simp
  | cons b bs ih =>
    rw [List.foldl_cons, binStep_eq rs R one u hR b (hbs b (List.mem_cons_self _ _)),
      ih (fun x hx => hbs x (List.mem_cons_of_mem _ hx))]
    simp [List.append_assoc, add_assoc]

/-- The files `execute` closes are, block by block, those of the closed form. -/
theorem execute_closed {F : Type} (rs : RunSimilarity F) (R : Int) (one : F) (u : Uninit F)
    (hR : 0 ≤ R) :
    (execute rs R one u).closed =
      (forRange 0 (num_bins rs.num_genes R + 1)).map (blockFiles rs R one u) := by
  unfold execute
  simp only []
  rw [binStep_fold rs R one u hR _ (fun b hb => (mem_forRange.1 hb).1)]
  simp

theorem num_bins_spec (G R : Int) (hG : 1 ≤ G) (hR : 1 ≤ R) :
    0 ≤ num_bins G R ∧ num_bins G R * R ≤ G - 1 ∧ G - 1 < (num_bins G R + 1) * R := by
  have hR0 : 0 < R := by omega
  unfold num_bins
  rw [Int.tdiv_eq_ediv (by omega) (by omega)]
  refine ⟨Int.ediv_nonneg (by omega) (by omega), Int.ediv_mul_le _ (by omega),
    Int.lt_ediv_add_one_mul_self _ hR0⟩

theorem ceil_eq_num_bins (G R : Int) (hG : 1 ≤ G) (hR : 1 ≤ R) :
    (G + R - 1) / R = num_bins G R + 1 := by
  obtain ⟨_, h1, h2⟩ := num_bins_spec G R hG hR
  have hR0 : 0 < R := by omega
  apply le_antisymm
  · have : (G + R - 1) / R < num_bins G R + 1 + 1 := by
      rw [Int.ediv_lt_iff_lt_mul hR0]
      nlinarith
    omega
  · rw [Int.le_ediv_iff_mul_le hR0]
    nlinarith

theorem block_start_le (G R b : Int) (hG : 1 ≤ G) (hR : 1 ≤ R) (hb : b ≤ num_bins G R) :
    b * R ≤ G - 1 := by
  obtain ⟨_, h1, _⟩ := num_bins_spec G R hG hR
  have : b * R ≤ num_bins G R * R := mul_le_mul_of_nonneg_right hb (by omega)
  omega

theorem bin_rows_eq_min (G R b : Int) (hG : 1 ≤ G) (hR : 1 ≤ R) (hb : b ≤ num_bins G R) :
    bin_rows G R b = min ((b + 1) * R) G := by
  obtain ⟨_, h1, h2⟩ := num_bins_spec G R hG hR
  unfold bin_rows
  split
  · have := block_start_le G R (b + 1) hG hR (by omega)
    rw [min_eq_left (by omega)]
  · have e : b = num_bins G R := by omega
    rw [e, min_eq_right (by omega)]

theorem num_lines_bounds (G R b : Int) (hG : 1 ≤ G) (hR : 1 ≤ R) (hb : b ≤ num_bins G R) :
    1 ≤ num_lines G R b ∧ num_lines G R b ≤ R ∧
      (b < num_bins G R → num_lines G R b = R) := by
  obtain ⟨_, h1, h2⟩ := num_bins_spec G R hG hR
  have hs := block_start_le G R b hG hR hb
  unfold num_lines bin_rows
  split
  · refine ⟨by linarith, by linarith, fun _ => by ring⟩
  · have e : b = num_bins G R := by omega
    subst e
    refine ⟨by omega, by linarith, fun h => absurd h (lt_irrefl _)⟩

theorem forRange_zero_eq (n : Int) :
    forRange 0 n = (List.range n.toNat).map (fun (b : Nat) => (b : Int)) := by
  unfold forRange
  simp

theorem blockRows_eq_num_lines (G R : Int) (b : Nat) (hG : 1 ≤ G) (hR : 1 ≤ R)
    (hb : (b : Int) ≤ num_bins G R) : blockRows G R b = num_lines G R b := by
  unfold blockRows num_lines
  rw [bin_rows_eq_min G R b hG hR hb]

theorem sum_blockRows (G R : Int) (hG : 1 ≤ G) (hR : 1 ≤ R) (k : Nat)
    (hk : (k : Int) ≤ num_bins G R + 1) :
    ((List.range k).map (blockRows G R)).sum = min (k * R) G := by
  induction k with
  | zero => simp; omega
  | succ k ih =>
    have hk' : (k : Int) ≤ num_bins G R := by push_cast at hk; omega
    have hs := block_start_le G R k hG hR hk'
    rw [List.range_succ, List.map_append, List.sum_append, ih (by omega)]
    simp only [List.map_cons, List.map_nil, List.sum_cons, List.sum_nil, add_zero, blockRows]
    rw [min_eq_left (by omega)]
    push_cast
    ring

/-- For `G ≥ 1`, `R ≥ 1` the files closed by `execute` are those of blocks `0 .. ⌈G/R⌉-1`,
block `b` holding rows `b*R ≤ j < min ((b+1)*R) G` behind the header `(G, blockRows G R b)`. -/
theorem closed_eq_blocks {F : Type} (rs : RunSimilarity F) (R : Int) (one : F)
    (u : Uninit F) (hG : 1 ≤ rs.num_genes) (hR : 1 ≤ R) :
    (execute rs R one u).closed =
      (List.range ((rs.num_genes + R - 1) / R).toNat).map (fun (b : Nat) =>
        blockAppend rs one u (forRange (b * R) (min ((b + 1) * R) rs.num_genes))
          (rs.method.map (fun m =>
            { path := outfilename (ensureDirs u.outdir rs.method).1 rs.fileprefix m b
              data := [Word.int32 rs.num_genes,
                Word.int32 (blockRows rs.num_genes R b)] }))) := by
  obtain ⟨h0, h1, h2⟩ := num_bins_spec rs.num_genes R hG hR
  have hc := ceil_eq_num_bins rs.num_genes R hG hR
  rw [execute_closed rs R one u (by omega), forRange_zero_eq, hc, List.map_map]
  apply List.map_congr_left
  intro b hb
  have hb' : (b : Int) ≤ num_bins rs.num_genes R := by
    have := List.mem_range.1 hb
    omega
  simp only [Function.comp_apply, blockFiles, openFiles,
    bin_rows_eq_min rs.num_genes R b hG hR hb',
    blockRows_eq_num_lines rs.num_genes R b hG hR hb']

theorem closed_getElem? {F : Type} (rs : RunSimilarity F) (R : Int) (one : F)
    (u : Uninit F) (hG : 1 ≤ rs.num_genes) (hR : 1 ≤ R) (b : Nat)
    (hb : b < ((rs.num_genes + R - 1) / R).toNat) :
    (execute rs R one u).closed[b]? = some
        (blockAppend rs one u (forRange (b * R) (min ((b + 1) * R) rs.num_genes))
          (rs.method.map (fun m =>
            { path := outfilename (ensureDirs u.outdir rs.method).1 rs.fileprefix m b
              data := [Word.int32 rs.num_genes,
                Word.int32 (blockRows rs.num_genes R b)] }))) := by
  rw [closed_eq_blocks rs R one u hG hR, List.getElem?_map, List.getElem?_range hb]
  rfl

/-- C1: for `G ≥ 1` genes and `R = ROWS_PER_OUTPUT_FILE ≥ 1`, `execute` closes exactly the
blocks `0 .. ⌈G/R⌉-1`, in this order; the files of block `b` are named with index `b`, carry
the header `(G, L_b)` with `L_b = min ((b+1)*R) G - b*R` and receive the rows
`b*R ≤ j < min ((b+1)*R) G`; `L_b = R` for every block but the last, `1 ≤ L_b ≤ R` for
every block (so no block is empty), and the `L_b` add up to `G`. -/
theorem C1_block_partition {F : Type} (rs : RunSimilarity F) (R : Int) (one : F)
    (u : Uninit F) (hG : 1 ≤ rs.num_genes) (hR : 1 ≤ R) :
    (execute rs R one u).closed =
      (List.range ((rs.num_genes + R - 1) / R).toNat).map (fun (b : Nat) =>
        blockAppend rs one u (forRange (b * R) (min ((b + 1) * R) rs.num_genes))
          (rs.method.map (fun m =>
            { path := outfilename (ensureDirs u.outdir rs.method).1 rs.fileprefix m b
              data := [Word.int32 rs.num_genes,
                Word.int32 (blockRows rs.num_genes R b)] })))
    ∧ 1 ≤ ((rs.num_genes + R - 1) / R).toNat
    ∧ (∀ b : Nat, b + 1 < ((rs.num_genes + R - 1) / R).toNat →
        blockRows rs.num_genes R b = R)
    ∧ (∀ b : Nat, b < ((rs.num_genes + R - 1) / R).toNat →
        1 ≤ blockRows rs.num_genes R b ∧ blockRows rs.num_genes R b ≤ R)
    ∧ ((List.range ((rs.num_genes + R - 1) / R).toNat).map
        (blockRows rs.num_genes R)).sum = rs.num_genes := by
  obtain ⟨h0, h1, h2⟩ := num_bins_spec rs.num_genes R hG hR
  have hc := ceil_eq_num_bins rs.num_genes R hG hR
  refine ⟨?_, by omega, ?_, ?_, ?_⟩
  · exact closed_eq_blocks rs R one u hG hR
  · intro b hb
    have hb' : (b : Int) < num_bins rs.num_genes R := by omega
    rw [blockRows_eq_num_lines rs.num_genes R b hG hR (by omega)]
    exact (num_lines_bounds rs.num_genes R b hG hR (by omega)).2.2 hb'
  · intro b hb
    have hb' : (b : Int) ≤ num_bins rs.num_genes R := by omega
    rw [blockRows_eq_num_lines rs.num_genes R b hG hR hb']
    exact ⟨(num_lines_bounds rs.num_genes R b hG hR hb').1,
      (num_lines_bounds rs.num_genes R b hG hR hb').2.1⟩
  · rw [sum_blockRows rs.num_genes R hG hR _ (by omega), hc]
    have e : (((num_bins rs.num_genes R + 1).toNat : Nat) : Int) = num_bins rs.num_genes R + 1 := by
      omega
    rw [e, min_eq_right (by omega)]

/-- Instance of C1 at three genes, two rows per file, method `pc`: two blocks with
headers `(3, 2)` and `(3, 1)`. -/
theorem C1_block_partition_witness :
    (1 : Int) ≤ run3.num_genes ∧ (1 : Int) ≤ 2 ∧
    (execute run3 2 1 uninit3).closed =
      [[{ path := "./Pearson/em.pc0.bin"
          data := [Word.int32 3, Word.int32 2, Word.float 1, Word.float 110, Word.float 1] }],
       [{ path := "./Pearson/em.pc1.bin"
          data := [Word.int32 3, Word.int32 1, Word.float 120, Word.float 121,
            Word.float 1] }]] :=
  ⟨by decide, by decide,
    (C1_block_partition run3 2 1 uninit3 (by decide) (by decide)).1.trans (by decide)⟩

theorem rowWords_length {F : Type} (rs : RunSimilarity F) (one : F) (u : Uninit F) (j : Int)
    (hj : 0 ≤ j) : ((rowWords rs one u j).length : Int) = j + 1 := by
  simp [rowWords, forRange_length]
  omega

theorem rowWords_all_float {F : Type} (rs : RunSimilarity F) (one : F) (u : Uninit F)
    (j : Int) : ∀ w ∈ rowWords rs one u j, ∃ x, w = Word.float x := by
  intro w hw
  simp only [rowWords, List.mem_append, List.mem_map, List.mem_singleton] at hw
  rcases hw with ⟨k, _, rfl⟩ | rfl
  · exact ⟨_, rfl⟩
  · exact ⟨_, rfl⟩

theorem flatMap_rowWords_length {F : Type} (rs : RunSimilarity F) (one : F) (u : Uninit F)
    (js : List Int) (hjs : ∀ j ∈ js, 0 ≤ j) :
    (((js.flatMap (rowWords rs one u)).length : Nat) : Int) = (js.map (fun j => j + 1)).sum := by
  induction js with
  | nil => simp
  | cons j js ih =>
    rw [List.flatMap_cons, List.length_append, List.map_cons, List.sum_cons]
    push_cast
    rw [ih (fun x hx => hjs x (List.mem_cons_of_mem _ hx)),
      rowWords_length rs one u j (hjs j (List.mem_cons_self _ _))]

theorem Ico_succ_right_int (a b : Int) (h : a ≤ b) :
    Finset.Ico a (b + 1) = insert b (Finset.Ico a b) := by
  ext x
  simp only [Finset.mem_Ico, Finset.mem_insert]
  omega

theorem sum_forRange (lo : Int) (n : Nat) (f : Int → Int) :
    ((forRange lo (lo + n)).map f).sum = ∑ x ∈ Finset.Ico lo (lo + n), f x := by
  induction n with
  | zero => simp [forRange_self lo lo (le_refl _)]
  | succ n ih =>
    have e : lo + ((n + 1 : Nat) : Int) = lo + n + 1 := by push_cast; omega
    rw [e, forRange_succ lo (lo + n) (by omega), List.map_append, List.sum_append, ih,
      Ico_succ_right_int lo (lo + n) (by omega), Finset.sum_insert (by simp)]
    simp [add_comm]

theorem two_mul_sum_forRange (lo : Int) (n : Nat) :
    2 * ((forRange lo (lo + n)).map (fun j => j + 1)).sum = n * (2 * lo + n + 1) := by
  induction n with
  | zero => simp [forRange_self lo lo (le_refl _)]
  | succ n ih =>
    have e : lo + ((n + 1 : Nat) : Int) = lo + n + 1 := by push_cast; omega
    rw [e, forRange_succ lo (lo + n) (by omega), List.map_append, List.sum_append, mul_add, ih]
    simp only [List.map_cons, List.map_nil, List.sum_cons, List.sum_nil]
    push_cast
    ring

theorem blockRows_pos (G R : Int) (b : Nat) (hG : 1 ≤ G) (hR : 1 ≤ R)
    (hb : b < ((G + R - 1) / R).toNat) :
    0 ≤ (b : Int) * R ∧ 1 ≤ blockRows G R b ∧
      min (((b : Int) + 1) * R) G = b * R + (blockRows G R b).toNat := by
  have hc := ceil_eq_num_bins G R hG hR
  have hb' : (b : Int) ≤ num_bins G R := by omega
  have h1 := (num_lines_bounds G R b hG hR hb').1
  rw [← blockRows_eq_num_lines G R b hG hR hb'] at h1
  refine ⟨mul_nonneg (by omega) (by omega), h1, ?_⟩
  unfold blockRows at h1 ⊢
  omega

/-- C2: for `G ≥ 1`, `R ≥ 1`, a non-empty method list and every block `b` of the run, the
file of the first method for block `b` consists of the two header words `(G, L)` followed by
floats only, exactly `L*(2*r0 + L + 1)/2` of them, where `r0 = b*R`; the division is exact. -/
theorem C2_payload_length {F : Type} (rs : RunSimilarity F) (R : Int) (one : F)
    (u : Uninit F) (hG : 1 ≤ rs.num_genes) (hR : 1 ≤ R) (m : String) (ms : List String)
    (hm : rs.method = m :: ms) (b : Nat) (hb : b < ((rs.num_genes + R - 1) / R).toNat) :
    ∃ (f : OutFile F) (rest : List (OutFile F)) (payload : List (Word F)),
      (execute rs R one u).closed[b]? = some (f :: rest) ∧
      f.path = outfilename (ensureDirs u.outdir rs.method).1 rs.fileprefix m b ∧
      f.data = [Word.int32 rs.num_genes, Word.int32 (blockRows rs.num_genes R b)] ++ payload ∧
      (∀ w ∈ payload, ∃ x, w = Word.float x) ∧
      (2 : Int) ∣ blockRows rs.num_genes R b *
        (2 * (b * R) + blockRows rs.num_genes R b + 1) ∧
      (payload.length : Int) =
        blockRows rs.num_genes R b * (2 * (b * R) + blockRows rs.num_genes R b + 1) / 2 := by
  obtain ⟨h0, h1, h2⟩ := blockRows_pos rs.num_genes R b hG hR hb
  have hget := closed_getElem? rs R one u hG hR b hb
  have hlen : 2 * ((((forRange (b * R) (min ((b + 1) * R) rs.num_genes)).flatMap
      (rowWords rs one u)).length : Nat) : Int) =
      blockRows rs.num_genes R b * (2 * (b * R) + blockRows rs.num_genes R b + 1) := by
    rw [flatMap_rowWords_length rs one u _ (fun j hj => by
      have := (mem_forRange.1 hj).1
      omega), h2, two_mul_sum_forRange]
    have e : (((blockRows rs.num_genes R b).toNat : Nat) : Int) = blockRows rs.num_genes R b := by
      omega
    rw [e]
  rw [show List.map _ rs.method = _ from congrArg (List.map _) hm, List.map_cons,
    blockAppend] at hget
  refine ⟨_, _, _, hget, rfl, rfl, ?_, ⟨_, hlen.symm⟩, ?_⟩
  · intro w hw
    obtain ⟨j, _, hj⟩ := List.mem_flatMap.1 hw
    exact rowWords_all_float rs one u j w hj
  · exact Int.eq_ediv_of_mul_eq_right (by decide) hlen

/-- Instance of C2 at three genes, two rows per file, method `pc`, block 1 (row 2):
`1 * (2*2 + 1 + 1) / 2 = 3` floats. -/
theorem C2_payload_length_witness :
    ∃ (f : OutFile Int) (rest : List (OutFile Int)) (payload : List (Word Int)),
      (execute run3 2 1 uninit3).closed[1]? = some (f :: rest) ∧
      f.data = [Word.int32 3, Word.int32 1] ++ payload ∧ (payload.length : Int) = 3 := by
  obtain ⟨f, rest, payload, h1, _, h3, _, _, h6⟩ :=
    C2_payload_length run3 2 1 uninit3 (by decide) (by decide) "pc" [] rfl 1 (by decide)
  exact ⟨f, rest, payload, h1, h3, h6.trans (by decide)⟩

theorem computeScore_single {F : Type} (rs : RunSimilarity F) (score0 : F) (m : String)
    (s : Int → Int → F)
    (hsel : (m = "pc" ∧ s = rs.score_pc) ∨ (m = "mi" ∧ s = rs.score_mi) ∨
      (m = "sc" ∧ s = rs.score_sc))
    (hm : rs.method = [m]) (j k : Int) : computeScore rs score0 j k = s j k := by
  unfold computeScore
  rw [hm]
  rcases hsel with ⟨rfl, rfl⟩ | ⟨rfl, rfl⟩ | ⟨rfl, rfl⟩ <;> simp

/-- C3: when exactly one method `m` of `pc`, `mi`, `sc` is selected, with kernel `s`, the
file of block `b` is the header `(G, L_b)` followed, for `j` ascending over the rows
`b*R ≤ j < min ((b+1)*R) G`, by `s(j,0), …, s(j,j-1)` in ascending `k` and then the
diagonal `one` (the float `1.0`).  In particular, for `G = 3` and `R = 2`,
block 0 is `(3,2), 1, s(1,0), 1` and block 1 is `(3,1), s(2,0), s(2,1), 1`. -/
theorem C3_single_method_payload {F : Type} (rs : RunSimilarity F) (R : Int) (one : F)
    (u : Uninit F) (hG : 1 ≤ rs.num_genes) (hR : 1 ≤ R) (m : String) (s : Int → Int → F)
    (hsel : (m = "pc" ∧ s = rs.score_pc) ∨ (m = "mi" ∧ s = rs.score_mi) ∨
      (m = "sc" ∧ s = rs.score_sc))
    (hm : rs.method = [m]) :
    (execute rs R one u).closed.length = ((rs.num_genes + R - 1) / R).toNat ∧
    (∀ b : Nat, b < ((rs.num_genes + R - 1) / R).toNat →
      ∃ p : String, (execute rs R one u).closed[b]? = some
        [{ path := p
           data := [Word.int32 rs.num_genes, Word.int32 (blockRows rs.num_genes R b)] ++
             (forRange (b * R) (min ((b + 1) * R) rs.num_genes)).flatMap (fun j =>
               (forRange 0 j).map (fun k => Word.float (s j k)) ++ [Word.float one]) }]) ∧
    (rs.num_genes = 3 → R = 2 →
      (execute rs R one u).closed.map (fun fs => fs.map (fun f => f.data)) =
        [[[Word.int32 3, Word.int32 2, Word.float one, Word.float (s 1 0), Word.float one]],
         [[Word.int32 3, Word.int32 1, Word.float (s 2 0), Word.float (s 2 1),
           Word.float one]]]) := by
  have hrow : rowWords rs one u = fun j =>
      (forRange 0 j).map (fun k => Word.float (s j k)) ++ [Word.float one] := by
    funext j
    simp only [rowWords, computeScore_single rs u.score m s hsel hm]
  have hcl := closed_eq_blocks rs R one u hG hR
  refine ⟨by rw [hcl]; simp, ?_, ?_⟩
  · intro b hb
    have hget := closed_getElem? rs R one u hG hR b hb
    rw [show List.map _ rs.method = _ from congrArg (List.map _) hm] at hget
    simp only [List.map_cons, List.map_nil, blockAppend, hrow] at hget
    exact ⟨_, hget⟩
  · intro h3 h2
    subst h2
    rw [hcl, h3]
    simp only [hm, hrow]
    have e1 : forRange 0 2 = [0, 1] := by decide
    have e2 : forRange 2 3 = [2] := by decide
    have e3 : forRange 0 1 = [0] := by decide
    have e4 : forRange 0 0 = [] := by decide
    have e5 : ((3 + 2 - 1 : Int) / 2).toNat = 2 := by decide
    have e6 : blockRows 3 2 0 = 2 := by decide
    have e7 : blockRows 3 2 1 = 1 := by decide
    simp [e5, List.range_succ, blockAppend, e1, e2, e3, e4, e6, e7, hrow]

/-- Instance of C3 at three genes, two rows per file and the single method `pc`
with `s(j,k) = 100 + 10*j + k`. -/
theorem C3_single_method_payload_witness :
    (execute run3 2 1 uninit3).closed.map (fun fs => fs.map (fun f => f.data)) =
      [[[Word.int32 3, Word.int32 2, Word.float 1, Word.float 110, Word.float 1]],
       [[Word.int32 3, Word.int32 1, Word.float 120, Word.float 121, Word.float 1]]] :=
  (C3_single_method_payload run3 2 1 uninit3 (by decide) (by decide) "pc" run3.score_pc
    (Or.inl ⟨rfl, rfl⟩) rfl).2.2 rfl rfl

theorem forRange_getElem? (lo hi : Int) (i : Nat) (h : (i : Int) < hi - lo) :
    (forRange lo hi)[i]? = some (lo + i) := by
  unfold forRange
  rw [List.getElem?_map, List.getElem?_range (by omega)]
  rfl

theorem rowWords_getElem? {F : Type} (rs : RunSimilarity F) (one : F) (u : Uninit F)
    (j c : Int) (hc0 : 0 ≤ c) (hcj : c ≤ j) :
    (rowWords rs one u j)[c.toNat]? =
      some (if c = j then Word.float one else Word.float (computeScore rs u.score j c)) := by
  unfold rowWords
  by_cases h : c = j
  · subst h
    rw [List.getElem?_append_right (by simp [forRange_length])]
    simp [forRange_length]
  · rw [List.getElem?_append_left (by simp [forRange_length]; omega), List.getElem?_map,
      forRange_getElem? 0 j c.toNat (by omega)]
    simp only [if_neg h, Option.map_some']
    congr 3
    omega

/-- C4: in the file of the first method `m` for block `b` (rows from `r0 = b*R`), the words
written before the first float of row `j` are the header and the rows `r0 .. j-1`; they
occupy `8 + 4 * Σ_{j' = r0}^{j-1} (j'+1)` bytes, so row `j` starts at that byte offset, and
the float for column `c ≤ j` of row `j` (the score for `(j, c)`, or `one` on the diagonal)
is the word at that offset plus `4*c`. -/
theorem C4_row_offset {F : Type} (rs : RunSimilarity F) (R : Int) (one : F)
    (u : Uninit F) (hG : 1 ≤ rs.num_genes) (hR : 1 ≤ R) (m : String) (ms : List String)
    (hm : rs.method = m :: ms) (b : Nat) (hb : b < ((rs.num_genes + R - 1) / R).toNat)
    (j : Int) (hj1 : b * R ≤ j) (hj2 : j < min ((b + 1) * R) rs.num_genes) :
    ∃ (f : OutFile F) (rest : List (OutFile F)) (pre post : List (Word F)),
      (execute rs R one u).closed[b]? = some (f :: rest) ∧
      f.path = outfilename (ensureDirs u.outdir rs.method).1 rs.fileprefix m b ∧
      f.data = pre ++ (rowWords rs one u j ++ post) ∧
      pre = [Word.int32 rs.num_genes, Word.int32 (blockRows rs.num_genes R b)] ++
        (forRange (b * R) j).flatMap (rowWords rs one u) ∧
      4 * (pre.length : Int) = 8 + 4 * ∑ x ∈ Finset.Ico ((b : Int) * R) j, (x + 1) ∧
      ∀ c : Int, 0 ≤ c → c ≤ j →
        f.wordAtByte (8 + 4 * (∑ x ∈ Finset.Ico ((b : Int) * R) j, (x + 1)) + 4 * c) =
          some (if c = j then Word.float one
            else Word.float (computeScore rs u.score j c)) := by
  obtain ⟨h0, _, _⟩ := blockRows_pos rs.num_genes R b hG hR hb
  have hget := closed_getElem? rs R one u hG hR b hb
  rw [show List.map _ rs.method = _ from congrArg (List.map _) hm, List.map_cons,
    blockAppend, forRange_append _ j _ hj1 (le_of_lt hj2), forRange_cons j _ hj2,
    List.flatMap_append, List.flatMap_cons, ← List.append_assoc] at hget
  have hpre : 4 * ((([Word.int32 rs.num_genes, Word.int32 (blockRows rs.num_genes R b)] ++
      (forRange (b * R) j).flatMap (rowWords rs one u)).length : Nat) : Int) =
      8 + 4 * ∑ x ∈ Finset.Ico ((b : Int) * R) j, (x + 1) := by
    rw [List.length_append]
    push_cast
    rw [flatMap_rowWords_length rs one u _ (fun x hx => by
      have := (mem_forRange.1 hx).1
      omega)]
    have e : j = b * R + ((j - b * R).toNat : Nat) := by omega
    rw [e, sum_forRange]
    simp only [List.length_cons, List.length_nil]
    push_cast
    ring
  refine ⟨_, _, _, _, hget, rfl, rfl, rfl, hpre, ?_⟩
  intro c hc0 hcj
  have hoff : 8 + 4 * (∑ x ∈ Finset.Ico ((b : Int) * R) j, (x + 1)) + 4 * c =
      4 * (((([Word.int32 rs.num_genes, Word.int32 (blockRows rs.num_genes R b)] ++
        (forRange (b * R) j).flatMap (rowWords rs one u)).length + c.toNat : Nat)) : Int) := by
    push_cast [← hpre]
    rw [Int.toNat_of_nonneg hc0]
    ring
  unfold OutFile.wordAtByte
  rw [hoff, if_pos ⟨by omega, by omega⟩]
  have hidx : ∀ n : Nat, (4 * (n : Int) / 4).toNat = n := fun n => by omega
  rw [hidx]
  simp only []
  rw [List.getElem?_append_right (Nat.le_add_right _ _), Nat.add_sub_cancel_left,
    List.getElem?_append_left (by
      have := rowWords_length rs one u j (by omega)
      omega)]
  exact rowWords_getElem? rs one u j c hc0 hcj

/-- Instance of C4 at three genes, two rows per file, method `pc`: in block 0 row 1
starts at byte `8 + 4*1 = 12`, and its column 1 (the diagonal) is at byte 16. -/
theorem C4_row_offset_witness :
    ∃ (f : OutFile Int) (rest : List (OutFile Int)),
      (execute run3 2 1 uninit3).closed[0]? = some (f :: rest) ∧
      f.wordAtByte 12 = some (Word.float 110) ∧ f.wordAtByte 16 = some (Word.float 1) := by
  obtain ⟨f, rest, pre, post, h1, _, _, _, _, h6⟩ :=
    C4_row_offset run3 2 1 uninit3 (by decide) (by decide) "pc" [] rfl 0 (by decide) 1
      (by decide) (by decide)
  have e : (∑ x ∈ Finset.Ico (((0 : Nat) : Int) * 2) 1, (x + 1)) = 1 := by decide
  rw [e] at h6
  exact ⟨f, rest, h1, (h6 0 (by decide) (by decide)).trans (by decide),
    (h6 1 (by decide) (by decide)).trans (by decide)⟩

/-! ## The method loop of `execute` with more than one method -/

/-- C5 (evaluation at the failing input): with the methods `pc, sc` and two genes the file
of `pc` (first) receives for the pair `(1, 0)` the score of `sc` (310, not 110), and the
file of `sc` (second) receives no score at all: its payload is the two diagonals. -/
theorem C5_scores_only_in_first_file :
    (execute runTwoMethods 2 1 uninit3).closed.map (fun fs => fs.map (fun f => f.data)) =
      [[[Word.int32 2, Word.int32 2, Word.float 1, Word.float 310, Word.float 1],
        [Word.int32 2, Word.int32 2, Word.float 1, Word.float 1]]] ∧
    runTwoMethods.score_pc 1 0 = 110 ∧ runTwoMethods.score_sc 1 0 = 310 := by
  decide

/-- With a single method of `pc`, `sc`, `mi` the buffer `outdir` holds that method's own
directory when the files are opened. -/
theorem ensureDirs_single (outdir0 : String) :
    (ensureDirs outdir0 ["pc"]).1 = "./Pearson" ∧
      (ensureDirs outdir0 ["sc"]).1 = "./Spearman" ∧
      (ensureDirs outdir0 ["mi"]).1 = "./MI" := by
  simp [ensureDirs, setOutdir]

/-- C6 (evaluation at the failing input): with the methods `pc, sc` both directories are
made, but the single buffer `outdir` holds `./Spearman` when the files are opened, so the
file of `pc` is opened in `./Spearman` and nothing is opened in `./Pearson`. -/
theorem C6_files_in_last_directory :
    (execute runTwoMethods 2 1 uninit3).closed.map (fun fs => fs.map (fun f => f.path)) =
      [["./Spearman/em.pc0.bin", "./Spearman/em.sc0.bin"]] ∧
    (execute runTwoMethods 2 1 uninit3).dirs = ["./Pearson", "./Spearman"] := by
  decide

theorem computeScore_last {F : Type} (rs : RunSimilarity F) (score0 : F)
    (init : List String) (ml : String) (s : Int → Int → F)
    (hsel : (ml = "pc" ∧ s = rs.score_pc) ∨ (ml = "mi" ∧ s = rs.score_mi) ∨
      (ml = "sc" ∧ s = rs.score_sc))
    (hm : rs.method = init ++ [ml]) (j k : Int) : computeScore rs score0 j k = s j k := by
  unfold computeScore
  rw [hm, List.foldl_append]
  rcases hsel with ⟨rfl, rfl⟩ | ⟨rfl, rfl⟩ | ⟨rfl, rfl⟩ <;> simp

/-- C12: with `n ≥ 2` methods `m0, …, ml`, the last of them (`ml`, one of `pc`, `mi`, `sc`)
having the kernel `s`: for every pair `j ≠ k` the loop body writes exactly one word, the
float `s(j,k)` of the last method, and writes it to `outfiles[0]`; so in every block `b` the
file of `m0` is the header followed by the full rows filled with the scores of `ml`, and
the file of every other method is the header followed by `L` floats `one` and nothing
else: its payload has length `L`, which differs from `L*(2*r0 + L + 1)/2` as soon as the
block reaches a row `j ≥ 1`. -/
theorem C12_multi_method_files {F : Type} (rs : RunSimilarity F) (R : Int) (one : F)
    (u : Uninit F) (hG : 1 ≤ rs.num_genes) (hR : 1 ≤ R) (m0 ml : String)
    (mid : List String) (s : Int → Int → F)
    (hsel : (ml = "pc" ∧ s = rs.score_pc) ∨ (ml = "mi" ∧ s = rs.score_mi) ∨
      (ml = "sc" ∧ s = rs.score_sc))
    (hm : rs.method = m0 :: (mid ++ [ml])) (b : Nat)
    (hb : b < ((rs.num_genes + R - 1) / R).toNat) :
    (∀ (st : ExecState F) (j k : Int), j ≠ k →
      (cellStep rs one u j st k).outfiles = fwriteFirst (Word.float (s j k)) st.outfiles) ∧
    (execute rs R one u).closed[b]? = some
      ({ path := outfilename (ensureDirs u.outdir rs.method).1 rs.fileprefix m0 b
         data := [Word.int32 rs.num_genes, Word.int32 (blockRows rs.num_genes R b)] ++
           (forRange (b * R) (min ((b + 1) * R) rs.num_genes)).flatMap (fun j =>
             (forRange 0 j).map (fun k => Word.float (s j k)) ++ [Word.float one]) } ::
        (mid ++ [ml]).map (fun m =>
          { path := outfilename (ensureDirs u.outdir rs.method).1 rs.fileprefix m b
            data := [Word.int32 rs.num_genes, Word.int32 (blockRows rs.num_genes R b)] ++
              List.replicate (blockRows rs.num_genes R b).toNat (Word.float one) })) ∧
    (((List.replicate (blockRows rs.num_genes R b).toNat (Word.float one)).length : Nat) : Int)
      = blockRows rs.num_genes R b ∧
    (2 ≤ b * R + blockRows rs.num_genes R b →
      blockRows rs.num_genes R b ≠
        blockRows rs.num_genes R b * (2 * (b * R) + blockRows rs.num_genes R b + 1) / 2) := by
  obtain ⟨h0, h1, h2⟩ := blockRows_pos rs.num_genes R b hG hR hb
  have hscore : ∀ j k : Int, computeScore rs u.score j k = s j k :=
    computeScore_last rs u.score (m0 :: mid) ml s hsel (by rw [hm]; rfl)
  have hrow : rowWords rs one u = fun j =>
      (forRange 0 j).map (fun k => Word.float (s j k)) ++ [Word.float one] := by
    funext j
    simp only [rowWords, hscore]
  have hlen : (forRange ((b : Int) * R) (min (((b : Int) + 1) * R) rs.num_genes)).length =
      (blockRows rs.num_genes R b).toNat := by
    rw [forRange_length]
    rfl
  have hget := closed_getElem? rs R one u hG hR b hb
  refine ⟨?_, ?_, ?_, ?_⟩
  · intro st j k hjk
    simp only [cellStep, if_neg hjk, hscore]
  · rw [hget]
    simp only [hm, List.map_cons, blockAppend, hrow, List.map_const', hlen, List.map_map]
    rfl
  · rw [List.length_replicate]
    omega
  · intro hge heq
    obtain ⟨S, hS⟩ : ∃ S : Int, 2 * S =
        blockRows rs.num_genes R b * (2 * (b * R) + blockRows rs.num_genes R b + 1) := by
      have hprod := two_mul_sum_forRange ((b : Int) * R) (blockRows rs.num_genes R b).toNat
      have e : (((blockRows rs.num_genes R b).toNat : Nat) : Int) =
          blockRows rs.num_genes R b := by omega
      rw [e] at hprod
      exact ⟨_, hprod⟩
    have hd : blockRows rs.num_genes R b * (2 * (b * R) + blockRows rs.num_genes R b + 1) / 2
        = S := by
      rw [← hS]
      exact Int.mul_ediv_cancel_left S (by decide)
    rw [hd] at heq
    have hpos : 0 < blockRows rs.num_genes R b *
        (2 * (b * R) + blockRows rs.num_genes R b - 1) := mul_pos (by omega) (by omega)
    rw [← heq] at hS
    linarith

/-- Instance of C12 at two genes, two rows per file and the methods `pc, sc`: the file of
`pc` holds the `sc` score 310 of the pair `(1, 0)`, the file of `sc` the two diagonals. -/
theorem C12_multi_method_files_witness :
    (execute runTwoMethods 2 1 uninit3).closed[0]? = some
      [{ path := "./Spearman/em.pc0.bin"
         data := [Word.int32 2, Word.int32 2, Word.float 1, Word.float 310, Word.float 1] },
       { path := "./Spearman/em.sc0.bin"
         data := [Word.int32 2, Word.int32 2, Word.float 1, Word.float 1] }] :=
  (C12_multi_method_files runTwoMethods 2 1 uninit3 (by decide) (by decide) "pc" "sc" []
    runTwoMethods.score_sc (Or.inr (Or.inr ⟨rfl, rfl⟩)) rfl 0 (by decide)).2.1.trans
    (by decide)

/-! ## The pairs compared over a whole run -/

theorem execute_pwsets {F : Type} (rs : RunSimilarity F) (R : Int) (one : F) (u : Uninit F)
    (hR : 0 ≤ R) :
    (execute rs R one u).pwsets =
      ((forRange 0 (num_bins rs.num_genes R + 1)).flatMap (fun b =>
        forRange (b * R) (bin_rows rs.num_genes R b))).flatMap
          (fun j => (forRange 0 j).map (fun k => (j, k))) := by
  unfold execute
  simp only []
  rw [binStep_fold rs R one u hR _ (fun b hb => (mem_forRange.1 hb).1)]
  simp [List.flatMap_assoc]

theorem full_blocks_rows (G R : Int) (hR : 1 ≤ R) (k : Nat)
    (hk : (k : Int) ≤ num_bins G R) :
    (forRange 0 k).flatMap (fun b => forRange (b * R) (bin_rows G R b)) =
      forRange 0 (k * R) := by
  induction k with
  | zero => simp [forRange_self 0 0 (le_refl _)]
  | succ k ih =>
    have hk' : (k : Int) < num_bins G R := by push_cast at hk; omega
    have e : ((k + 1 : Nat) : Int) = (k : Int) + 1 := by push_cast; rfl
    have hb : bin_rows G R k = (k + 1) * R := by
      unfold bin_rows
      rw [if_pos hk']
    have h0 : (0 : Int) ≤ k * R := mul_nonneg (by omega) (by omega)
    rw [e, forRange_succ 0 k (by omega), List.flatMap_append, ih (by omega)]
    simp only [List.flatMap_cons, List.flatMap_nil, List.append_nil, hb]
    rw [← forRange_append 0 (k * R) ((k + 1) * R) h0 (by nlinarith)]

theorem all_blocks_rows (G R : Int) (hG : 1 ≤ G) (hR : 1 ≤ R) :
    (forRange 0 (num_bins G R + 1)).flatMap (fun b => forRange (b * R) (bin_rows G R b)) =
      forRange 0 G := by
  obtain ⟨h0, h1, _⟩ := num_bins_spec G R hG hR
  have hq : num_bins G R = ((num_bins G R).toNat : Nat) := by omega
  have hfull := full_blocks_rows G R hR (num_bins G R).toNat (by omega)
  rw [← hq] at hfull
  have hb : bin_rows G R (num_bins G R) = G := by
    unfold bin_rows
    rw [if_neg (lt_irrefl _)]
  rw [forRange_succ 0 _ h0, List.flatMap_append, hfull]
  simp only [List.flatMap_cons, List.flatMap_nil, List.append_nil, hb]
  rw [← forRange_append 0 (num_bins G R * R) G (mul_nonneg h0 (by omega)) (by omega)]

theorem two_mul_pairs_length (n : Nat) :
    2 * ((((forRange 0 n).flatMap
      (fun j => (forRange 0 j).map (fun k => (j, k)))).length : Nat) : Int) =
      (n : Int) * (n - 1) := by
  induction n with
  | zero => simp [forRange_self 0 0 (le_refl _)]
  | succ n ih =>
    have e : ((n + 1 : Nat) : Int) = (n : Int) + 1 := by push_cast; rfl
    rw [e, forRange_succ 0 n (by omega), List.flatMap_append, List.length_append]
    push_cast
    rw [mul_add, ih]
    simp only [List.flatMap_cons, List.flatMap_nil, List.append_nil, List.length_map,
      forRange_length]
    have : (((n : Int) - 0).toNat : Int) = n := by omega
    rw [this]
    ring

theorem forRange_pairwise_lt (lo hi : Int) : (forRange lo hi).Pairwise (fun a b => a < b) := by
  unfold forRange
  rw [List.pairwise_map]
  exact (List.pairwise_lt_range _).imp (fun h => by omega)

theorem pairs_pairwise_lex (G : Int) :
    ((forRange 0 G).flatMap (fun j => (forRange 0 j).map (fun k => (j, k)))).Pairwise
      (fun p q => p.1 < q.1 ∨ (p.1 = q.1 ∧ p.2 < q.2)) := by
  rw [List.pairwise_flatMap]
  constructor
  · intro j _
    rw [List.pairwise_map]
    exact (forRange_pairwise_lt 0 j).imp (fun h => Or.inr ⟨rfl, h⟩)
  · refine (forRange_pairwise_lt 0 G).imp ?_
    intro a b hab x hx y hy
    obtain ⟨_, _, rfl⟩ := List.mem_map.1 hx
    obtain ⟨_, _, rfl⟩ := List.mem_map.1 hy
    exact Or.inl hab

/-- C13: for `G ≥ 1` and `R ≥ 1` the pairs `(j, k)` for which `execute` builds a
`PairWiseSet`, in the order in which it builds them over all blocks, are the rows
`j = 0 .. G-1` in ascending order and within a row `k = 0 .. j-1` in ascending order: a
pair occurs iff `0 ≤ k < j < G`, no pair occurs twice, the list is strictly ascending in
the lexicographic order, and its length is `G*(G-1)/2`, which is `total_comps`. -/
theorem C13_pairs_of_a_run {F : Type} (rs : RunSimilarity F) (R : Int) (one : F)
    (u : Uninit F) (hG : 1 ≤ rs.num_genes) (hR : 1 ≤ R) :
    (execute rs R one u).pwsets =
      (forRange 0 rs.num_genes).flatMap (fun j => (forRange 0 j).map (fun k => (j, k))) ∧
    (∀ j k : Int, (j, k) ∈ (execute rs R one u).pwsets ↔ 0 ≤ k ∧ k < j ∧ j < rs.num_genes) ∧
    (execute rs R one u).pwsets.Nodup ∧
    (execute rs R one u).pwsets.Pairwise
      (fun p q => p.1 < q.1 ∨ (p.1 = q.1 ∧ p.2 < q.2)) ∧
    (((execute rs R one u).pwsets.length : Nat) : Int) =
      rs.num_genes * (rs.num_genes - 1) / 2 ∧
    (((execute rs R one u).pwsets.length : Nat) : Int) = total_comps rs.num_genes := by
  have hp : (execute rs R one u).pwsets =
      (forRange 0 rs.num_genes).flatMap (fun j => (forRange 0 j).map (fun k => (j, k))) := by
    rw [execute_pwsets rs R one u (by omega), all_blocks_rows rs.num_genes R hG hR]
  have hlex := pairs_pairwise_lex rs.num_genes
  have hlen : 2 * ((((forRange 0 rs.num_genes).flatMap
      (fun j => (forRange 0 j).map (fun k => (j, k)))).length : Nat) : Int) =
      rs.num_genes * (rs.num_genes - 1) := by
    have e : rs.num_genes = ((rs.num_genes.toNat : Nat) : Int) := by omega
    have h := two_mul_pairs_length rs.num_genes.toNat
    rw [← e] at h
    exact h
  have hdiv : ((((forRange 0 rs.num_genes).flatMap
      (fun j => (forRange 0 j).map (fun k => (j, k)))).length : Nat) : Int) =
      rs.num_genes * (rs.num_genes - 1) / 2 :=
    Int.eq_ediv_of_mul_eq_right (by decide) hlen
  rw [hp]
  refine ⟨rfl, ?_, ?_, hlex, hdiv, ?_⟩
  · intro j k
    simp only [List.mem_flatMap, List.mem_map, mem_forRange, Prod.mk.injEq]
    constructor
    · rintro ⟨j', ⟨_, hj⟩, k', ⟨hk0, hk⟩, rfl, rfl⟩
      exact ⟨hk0, hk, hj⟩
    · rintro ⟨hk0, hk, hj⟩
      exact ⟨j, ⟨by omega, hj⟩, k, ⟨hk0, hk⟩, rfl, rfl⟩
  · refine hlex.imp ?_
    intro p q h e
    subst e
    rcases h with h | ⟨_, h⟩ <;> exact lt_irrefl _ h
  · rw [hdiv]
    unfold total_comps
    rw [Int.tdiv_eq_ediv (mul_nonneg (by omega) (by omega)) (by decide)]

/-- Instance of C13 at three genes and two rows per file: the pairs are
`(1,0), (2,0), (2,1)`, three of them. -/
theorem C13_pairs_of_a_run_witness :
    (execute run3 2 1 uninit3).pwsets = [(1, 0), (2, 0), (2, 1)] ∧
    (((execute run3 2 1 uninit3).pwsets.length : Nat) : Int) = total_comps 3 :=
  have h := C13_pairs_of_a_run run3 2 1 uninit3 (by decide) (by decide)
  ⟨h.1.trans (by decide), h.2.2.2.2.2⟩

/-! ## `parseMethods` -/

theorem splitMethods_zeroHeap (rest : List Char) (i : Nat) (cur : List Char) :
    splitMethods zeroHeap i cur rest =
      (List.splitOnP.go (fun c => c == ',') rest cur.reverse).map String.mk := by
  induction rest generalizing i cur with
  | nil => simp [splitMethods, List.splitOnP.go]
  | cons c rest ih =>
    unfold splitMethods List.splitOnP.go
    by_cases h : c = ','
    · simp [h, ih, zeroHeap]
    · simp [h, ih]

theorem checkMethods_none_iff (seen ms : List String) :
    checkMethods seen ms = none ↔
      (∀ m ∈ ms, m = "pc" ∨ m = "sc" ∨ m = "mi") ∧ ms.Nodup ∧ ∀ m ∈ ms, m ∉ seen := by
  induction ms generalizing seen with
  | nil => simp [checkMethods]
  | cons m ms ih =>
    unfold checkMethods
    by_cases hv : m ≠ "pc" ∧ m ≠ "mi" ∧ m ≠ "sc"
    · rw [if_pos hv]
      simp only [List.mem_cons, forall_eq_or_imp, false_iff, reduceCtorEq]
      rintro ⟨⟨h, _⟩, _⟩
      rcases h with h | h | h
      · exact hv.1 h
      · exact hv.2.2 h
      · exact hv.2.1 h
    · rw [if_neg hv]
      have hv' : m = "pc" ∨ m = "sc" ∨ m = "mi" := by
        by_cases h1 : m = "pc"
        · exact Or.inl h1
        by_cases h2 : m = "mi"
        · exact Or.inr (Or.inr h2)
        by_cases h3 : m = "sc"
        · exact Or.inr (Or.inl h3)
        exact absurd ⟨h1, h2, h3⟩ hv
      by_cases hs : m ∈ seen
      · rw [if_pos hs]
        simp only [List.mem_cons, forall_eq_or_imp, false_iff, reduceCtorEq]
        rintro ⟨_, _, h, _⟩
        exact h hs
      · rw [if_neg hs, ih]
        constructor
        · rintro ⟨h1, h2, h3⟩
          refine ⟨?_, List.nodup_cons.2 ⟨fun hm => ?_, h2⟩, ?_⟩
          · intro x hx
            rcases List.mem_cons.1 hx with rfl | hx
            · exact hv'
            · exact h1 x hx
          · exact h3 m hm (List.mem_append_right _ (List.mem_singleton_self m))
          · intro x hx
            rcases List.mem_cons.1 hx with rfl | hx
            · exact hs
            · exact fun hxs => h3 x hx (List.mem_append_left _ hxs)
        · rintro ⟨h1, h2, h3⟩
          obtain ⟨h2a, h2b⟩ := List.nodup_cons.1 h2
          refine ⟨fun x hx => h1 x (List.mem_cons_of_mem _ hx), h2b, ?_⟩
          intro x hx hxs
          rcases List.mem_append.1 hxs with hxs | hxs
          · exact h3 x (List.mem_cons_of_mem _ hx) hxs
          · rw [List.mem_singleton] at hxs
            exact h2a (hxs ▸ hx)

theorem checkMethods_not_accepted (seen ms : List String) (l : List String) :
    checkMethods seen ms ≠ some (ParseOutcome.accepted l) := by
  induction ms generalizing seen with
  | nil => simp [checkMethods]
  | cons m ms ih =>
    unfold checkMethods
    split
    · simp
    · split
      · simp
      · exact ih _

theorem valid_nodup_length_le (ms : List String)
    (hv : ∀ m ∈ ms, m = "pc" ∨ m = "sc" ∨ m = "mi") (hn : ms.Nodup) : ms.length ≤ 3 := by
  have hsub : ms ⊆ ["pc", "sc", "mi"] := by
    intro m hm
    rcases hv m hm with h | h | h <;> simp [h]
  exact (hn.subperm hsub).length_le

/-- On a zero-filled heap `parseMethods` accepts exactly the strings whose comma-separated
tokens all are `pc`, `sc` or `mi` and are pairwise different, and then stores the tokens in
input order. -/
theorem parseMethods_zeroHeap_accepted_iff (methods_str : String) (ms : List String) :
    parseMethods zeroHeap methods_str = ParseOutcome.accepted ms ↔
      ms = (methods_str.data.splitOn ',').map String.mk ∧
      (∀ m ∈ ms, m = "pc" ∨ m = "sc" ∨ m = "mi") ∧ ms.Nodup := by
  have hsplit : splitMethods zeroHeap 0 [] methods_str.data =
      (methods_str.data.splitOn ',').map String.mk := by
    rw [splitMethods_zeroHeap]
    rfl
  unfold parseMethods
  simp only [hsplit]
  generalize (methods_str.data.splitOn ',').map String.mk = toks
  constructor
  · intro h
    split at h
    · simp at h
    · cases hc : checkMethods [] toks with
      | some e =>
        rw [hc] at h
        simp only at h
        exact absurd (h ▸ hc) (checkMethods_not_accepted _ _ _)
      | none =>
        rw [hc] at h
        simp only [ParseOutcome.accepted.injEq] at h
        obtain ⟨h1, h2, _⟩ := (checkMethods_none_iff [] toks).1 hc
        exact ⟨h.symm, h ▸ h1, h ▸ h2⟩
  · rintro ⟨rfl, h1, h2⟩
    have hlen := valid_nodup_length_le ms h1 h2
    rw [if_neg (by unfold method_slots; omega),
      (checkMethods_none_iff [] ms).2 ⟨h1, h2, fun _ _ => List.not_mem_nil _⟩]

/-- The number of comma-separated tokens is the number of commas plus one. -/
theorem splitMethods_length (heap : Nat → List Char) (rest : List Char) (i : Nat)
    (cur : List Char) : (splitMethods heap i cur rest).length = rest.count ',' + 1 := by
  induction rest generalizing i cur with
  | nil => simp [splitMethods]
  | cons c rest ih =>
    unfold splitMethods
    by_cases h : c = ','
    · simp [h, ih]
    · rw [if_neg h, ih, List.count_cons_of_ne (fun e => h e.symm)]

/-- C7 (evaluation at the failing inputs): `pc,sc` is accepted when the block allocated for
the first name happens to be zero-filled, but rejected as unknown when that block holds a
non-NUL byte after the two copied characters (the code never terminates the copy); and a
list of eleven names is stored past the ten allocated slots before any check runs. -/
theorem C7_parseMethods_unterminated :
    parseMethods zeroHeap "pc,sc" = ParseOutcome.accepted ["pc", "sc"] ∧
    parseMethods dirtyHeap "pc,sc" = ParseOutcome.exit_unknown ∧
    parseMethods zeroHeap "pc,sc,mi,a,b,c,d,e,f,g,h" = ParseOutcome.out_of_bounds := by
  decide

/-- C14: whenever `parseMethods` accepts (whatever the heap holds), the stored names are
the result of the splitting loop, `1 ≤ num_methods ≤ 3`, every stored name is one of
`pc`, `sc`, `mi`, no two stored names are equal, and so at most 3 of the 10 allocated
slots are used. -/
theorem C14_accepted_methods (heap : Nat → List Char) (methods_str : String)
    (ms : List String) (h : parseMethods heap methods_str = ParseOutcome.accepted ms) :
    ms = splitMethods heap 0 [] methods_str.data ∧
    1 ≤ ms.length ∧ ms.length ≤ 3 ∧
    (∀ m ∈ ms, m = "pc" ∨ m = "sc" ∨ m = "mi") ∧ ms.Nodup ∧
    ms.length + 7 ≤ method_slots := by
  unfold parseMethods at h
  simp only [] at h
  split at h
  · cases h
  · cases hc : checkMethods [] (splitMethods heap 0 [] methods_str.data) with
    | some e =>
      rw [hc] at h
      simp only at h
      exact absurd (h ▸ hc) (checkMethods_not_accepted _ _ _)
    | none =>
      rw [hc] at h
      simp only [ParseOutcome.accepted.injEq] at h
      obtain ⟨h1, h2, _⟩ := (checkMethods_none_iff [] _).1 hc
      have hlen := splitMethods_length heap methods_str.data 0 []
      have h3 := valid_nodup_length_le _ h1 h2
      subst h
      refine ⟨rfl, by omega, h3, h1, h2, ?_⟩
      unfold method_slots
      omega

/-- Instance of C14: the accepted string `pc,sc` (zero-filled heap) stores two names. -/
theorem C14_accepted_methods_witness :
    parseMethods zeroHeap "pc,sc" = ParseOutcome.accepted ["pc", "sc"] ∧
    1 ≤ ["pc", "sc"].length ∧ ["pc", "sc"].length ≤ 3 ∧ ["pc", "sc"].Nodup :=
  have h := C14_accepted_methods zeroHeap "pc,sc" ["pc", "sc"] (by decide)
  ⟨by decide, h.2.1, h.2.2.1, h.2.2.2.2.1⟩

/-! ## `RunExtract` -/

/-- C8: whenever `th > 0` and `x_coord ≥ 1` or `y_coord ≥ 1`, the constructor of
`RunExtract` ends in `exit(-1)` at one of the checks that precede the loading of the
expression matrix, whatever the loader would do; when the four earlier checks (method,
rows, columns, missing-value string) pass, the exit is the one of line 179-182
("threshold or x and y coordinates only but not both"). -/
theorem C8_threshold_with_coordinates (a : RunExtract) (hth : a.th.gt_zero = true)
    (hxy : 1 ≤ a.x_coord ∨ 1 ≤ a.y_coord) :
    ∃ e : ExtractExit,
      (∀ newEMatrix : RunExtract → Option EMatrix, a.construct newEMatrix = Except.error e) ∧
      (e = ExtractExit.no_method ∨ e = ExtractExit.bad_rows ∨ e = ExtractExit.bad_cols ∨
        e = ExtractExit.no_na_val ∨ e = ExtractExit.th_and_coords) ∧
      (a.cmethod ≠ none → 0 < a.rows → 0 < a.cols →
        ¬ (a.omit_na ≠ 0 ∧ a.na_val = none) → e = ExtractExit.th_and_coords) := by
  have hc : a.th.gt_zero = true ∧ (a.x_coord > 0 ∨ a.y_coord > 0) := ⟨hth, by omega⟩
  by_cases h1 : a.cmethod = none
  · exact ⟨ExtractExit.no_method,
      fun _ => by simp [RunExtract.construct, RunExtract.checkArgs, h1],
      Or.inl rfl, fun h => absurd h1 h⟩
  by_cases h2 : a.rows < 0 ∨ a.rows = 0
  · exact ⟨ExtractExit.bad_rows,
      fun _ => by simp [RunExtract.construct, RunExtract.checkArgs, h1, h2],
      Or.inr (Or.inl rfl), fun _ h => by omega⟩
  by_cases h3 : a.cols < 0 ∨ a.cols = 0
  · exact ⟨ExtractExit.bad_cols,
      fun _ => by simp [RunExtract.construct, RunExtract.checkArgs, h1, h2, h3],
      Or.inr (Or.inr (Or.inl rfl)), fun _ _ h => by omega⟩
  by_cases h4 : a.omit_na ≠ 0 ∧ a.na_val = none
  · exact ⟨ExtractExit.no_na_val,
      fun _ => by simp [RunExtract.construct, RunExtract.checkArgs, h1, h2, h3, h4],
      Or.inr (Or.inr (Or.inr (Or.inl rfl))), fun _ _ _ h => absurd h4 h⟩
  · exact ⟨ExtractExit.th_and_coords,
      fun _ => by simp [RunExtract.construct, RunExtract.checkArgs, h1, h2, h3, h4, hc],
      Or.inr (Or.inr (Or.inr (Or.inr rfl))), fun _ _ _ _ => rfl⟩

/-- Instance of C8: `--th 0.5 -x 2 -y 1` ends at the check of line 179, both with a loader
that would succeed and with one that would fail. -/
theorem C8_threshold_with_coordinates_witness :
    argsThAndCoords.th.gt_zero = true ∧ 1 ≤ argsThAndCoords.x_coord ∧
    argsThAndCoords.construct (fun _ => some ematrix3) =
      Except.error ExtractExit.th_and_coords ∧
    argsThAndCoords.construct (fun _ => none) = Except.error ExtractExit.th_and_coords := by
  obtain ⟨e, h1, _, h3⟩ :=
    C8_threshold_with_coordinates argsThAndCoords (by decide) (Or.inl (by decide))
  have he := h3 (by decide) (by decide) (by decide) (by decide)
  subst he
  exact ⟨by decide, by decide, h1 _, h1 _⟩

/-- C9 (evaluation at the failing input): with `--th 0.5 --gene1 g1 --gene2 g2` and both
genes present (rows 1 and 2) the constructor succeeds, leaves `x_coord = 1`, `y_coord = 2`,
and `execute` then runs the threshold branch `writeNetwork`; the gene pair is ignored. -/
theorem C9_threshold_with_gene_names_accepted :
    argsThAndGenes.construct (fun _ => some ematrix3) =
      Except.ok { argsThAndGenes with x_coord := 1, y_coord := 2 } ∧
    RunExtract.execute { argsThAndGenes with x_coord := 1, y_coord := 2 } =
      ExtractMode.writeNetwork := by
  exact ⟨rfl, rfl⟩

/-- C10 (evaluation at the failing input): with no threshold, no coordinates and no gene
names the constructor succeeds with `x_coord = y_coord = -1`, and `execute` takes the
lookup branch `getPosition`. -/
theorem C10_no_selection_accepted :
    argsNoSelection.construct (fun _ => some ematrix3) = Except.ok argsNoSelection ∧
    argsNoSelection.x_coord = -1 ∧ argsNoSelection.y_coord = -1 ∧
    argsNoSelection.execute = ExtractMode.getPosition := by
  exact ⟨rfl, rfl, rfl, rfl⟩

/-- C11: when both gene names are given (and the constructor gets as far as the lookup:
the earlier checks pass and the matrix is loaded), the constructor ends with the exit for
an unknown gene exactly when one of the two calls of `getGeneCoord` is negative (`gene1`
is reported first); otherwise the lookup step leaves `x_coord` and `y_coord` equal to the
two returned rows, and so does every successful construction. -/
theorem C11_gene_lookup (a : RunExtract) (newEMatrix : RunExtract → Option EMatrix)
    (ematrix : EMatrix) (g1 g2 : String) (h1 : a.gene1 = some g1) (h2 : a.gene2 = some g2)
    (hchk : a.checkArgs = Except.ok ()) (hload : newEMatrix a = some ematrix) :
    ((a.construct newEMatrix = Except.error ExtractExit.gene1_not_found ∨
        a.construct newEMatrix = Except.error ExtractExit.gene2_not_found) ↔
      (ematrix.getGeneCoord g1 < 0 ∨ ematrix.getGeneCoord g2 < 0)) ∧
    (ematrix.getGeneCoord g1 < 0 →
      a.construct newEMatrix = Except.error ExtractExit.gene1_not_found) ∧
    (0 ≤ ematrix.getGeneCoord g1 → ematrix.getGeneCoord g2 < 0 →
      a.construct newEMatrix = Except.error ExtractExit.gene2_not_found) ∧
    (0 ≤ ematrix.getGeneCoord g1 → 0 ≤ ematrix.getGeneCoord g2 →
      a.lookupGenes ematrix = Except.ok
        { a with x_coord := ematrix.getGeneCoord g1, y_coord := ematrix.getGeneCoord g2 }) ∧
    (∀ r : RunExtract, a.construct newEMatrix = Except.ok r →
      r.x_coord = ematrix.getGeneCoord g1 ∧ r.y_coord = ematrix.getGeneCoord g2) := by
  have hc : a.construct newEMatrix =
      match a.lookupGenes ematrix with
      | Except.error e => Except.error e
      | Except.ok a1 => a1.checkCoords := by
    simp only [RunExtract.construct, hchk, hload]
  by_cases hx : ematrix.getGeneCoord g1 < 0
  · have hl : a.lookupGenes ematrix = Except.error ExtractExit.gene1_not_found := by
      simp [RunExtract.lookupGenes, h1, h2, hx]
    have hcon : a.construct newEMatrix = Except.error ExtractExit.gene1_not_found := by
      rw [hc, hl]
    refine ⟨⟨fun _ => Or.inl hx, fun _ => Or.inl hcon⟩, fun _ => hcon, fun h => by omega,
      fun h => by omega, fun r hr => ?_⟩
    rw [hcon] at hr
    cases hr
  by_cases hy : ematrix.getGeneCoord g2 < 0
  · have hl : a.lookupGenes ematrix = Except.error ExtractExit.gene2_not_found := by
      simp [RunExtract.lookupGenes, h1, h2, hx, hy]
    have hcon : a.construct newEMatrix = Except.error ExtractExit.gene2_not_found := by
      rw [hc, hl]
    refine ⟨⟨fun _ => Or.inr hy, fun _ => Or.inr hcon⟩, fun h => absurd h hx, fun _ _ => hcon,
      fun _ h => by omega, fun r hr => ?_⟩
    rw [hcon] at hr
    cases hr
  · have hl : a.lookupGenes ematrix = Except.ok
        { a with x_coord := ematrix.getGeneCoord g1, y_coord := ematrix.getGeneCoord g2 } := by
      simp [RunExtract.lookupGenes, h1, h2, hx, hy]
    have hcon : a.construct newEMatrix = RunExtract.checkCoords
        { a with x_coord := ematrix.getGeneCoord g1, y_coord := ematrix.getGeneCoord g2 } := by
      rw [hc, hl]
    have hne : ∀ e : ExtractExit, a.construct newEMatrix = Except.error e →
        e = ExtractExit.bad_coords := by
      intro e he
      rw [hcon] at he
      unfold RunExtract.checkCoords at he
      split at he
      · exact (Except.error.inj he).symm
      · cases he
    refine ⟨⟨fun h => ?_, fun h => ?_⟩, fun h => absurd h hx, fun _ h => absurd h hy,
      fun _ _ => hl, fun r hr => ?_⟩
    · rcases h with h | h
      · exact absurd (hne _ h) (by decide)
      · exact absurd (hne _ h) (by decide)
    · rcases h with h | h
      · exact absurd h hx
      · exact absurd h hy
    · rw [hcon] at hr
      unfold RunExtract.checkCoords at hr
      split at hr
      · cases hr
      · cases hr
        exact ⟨rfl, rfl⟩

/-- Instance of C11: `--gene1 g1 --gene2 g2` on a matrix with these genes in rows 1 and 2
ends with `x_coord = 1`, `y_coord = 2`. -/
theorem C11_gene_lookup_witness :
    argsGenes.construct (fun _ => some ematrix3) =
      Except.ok { argsGenes with x_coord := 1, y_coord := 2 } ∧
    argsGenes.lookupGenes ematrix3 = Except.ok { argsGenes with x_coord := 1, y_coord := 2 } :=
  ⟨rfl, (C11_gene_lookup argsGenes (fun _ => some ematrix3) ematrix3 "g1" "g2" rfl rfl rfl
    rfl).2.2.2.1 (by decide) (by decide)⟩

/-- C15, the claim as first stated fails: with no threshold (`th = 0`) and the gene names
`g0` and `g1`, which both resolve to a non-negative row (0 and 1), the earlier checks
pass and the lookup step sets `x_coord = 0`, `y_coord = 1`, but the constructor then ends
in the `exit(-1)` of the coordinate check of lines 215-219 instead of succeeding. -/
theorem C15_first_row_gene_counterexample :
    0 ≤ ematrix3.getGeneCoord "g0" ∧ 0 ≤ ematrix3.getGeneCoord "g1" ∧
    argsGeneFirstRow.gene1 = some "g0" ∧ argsGeneFirstRow.gene2 = some "g1" ∧
    argsGeneFirstRow.th = CFloat.finite 0 0 ∧
    argsGeneFirstRow.checkArgs = Except.ok () ∧
    argsGeneFirstRow.lookupGenes ematrix3 =
      Except.ok { argsGeneFirstRow with x_coord := 0, y_coord := 1 } ∧
    argsGeneFirstRow.construct (fun _ => some ematrix3) =
      Except.error ExtractExit.bad_coords ∧
    ¬ ∃ r : RunExtract, argsGeneFirstRow.construct (fun _ => some ematrix3) = Except.ok r := by
  refine ⟨by decide, by decide, rfl, rfl, rfl, rfl, rfl, rfl, ?_⟩
  rintro ⟨r, hr⟩
  have h : argsGeneFirstRow.construct (fun _ => some ematrix3) =
      Except.error ExtractExit.bad_coords := rfl
  rw [h] at hr
  cases hr

/-- C15 as amended: when both gene names are given, the earlier checks pass and the matrix
is loaded, then (whatever `th` is, in particular with no threshold) a pair of names that
both resolve to a row `≥ 1` passes the coordinate check and the constructor ends with
`x_coord` and `y_coord` equal to the two resolved rows; a pair in which one name resolves
to the first row (index 0) and the other to a row `≥ 1` is rejected by the coordinate
check of lines 215-219. -/
theorem C15_gene_rows_coordinate_check (a : RunExtract)
    (newEMatrix : RunExtract → Option EMatrix) (ematrix : EMatrix) (g1 g2 : String)
    (h1 : a.gene1 = some g1) (h2 : a.gene2 = some g2)
    (hchk : a.checkArgs = Except.ok ()) (hload : newEMatrix a = some ematrix) :
    (1 ≤ ematrix.getGeneCoord g1 → 1 ≤ ematrix.getGeneCoord g2 →
      a.construct newEMatrix = Except.ok
        { a with x_coord := ematrix.getGeneCoord g1, y_coord := ematrix.getGeneCoord g2 }) ∧
    ((ematrix.getGeneCoord g1 = 0 ∧ 1 ≤ ematrix.getGeneCoord g2) ∨
        (1 ≤ ematrix.getGeneCoord g1 ∧ ematrix.getGeneCoord g2 = 0) →
      a.construct newEMatrix = Except.error ExtractExit.bad_coords) := by
  have hc : a.construct newEMatrix =
      match a.lookupGenes ematrix with
      | Except.error e => Except.error e
      | Except.ok a1 => a1.checkCoords := by
    simp only [RunExtract.construct, hchk, hload]
  have hl : 0 ≤ ematrix.getGeneCoord g1 → 0 ≤ ematrix.getGeneCoord g2 →
      a.lookupGenes ematrix = Except.ok
        { a with x_coord := ematrix.getGeneCoord g1, y_coord := ematrix.getGeneCoord g2 } := by
    intro hx hy
    simp [RunExtract.lookupGenes, h1, h2, not_lt.2 hx, not_lt.2 hy]
  constructor
  · intro hx hy
    rw [hc, hl (by omega) (by omega)]
    simp only [RunExtract.checkCoords]
    rw [if_neg (by omega)]
  · intro h
    rw [hc, hl (by omega) (by omega)]
    simp only [RunExtract.checkCoords]
    rw [if_pos (by omega)]

/-- Instance of the amended C15: `--gene1 g1 --gene2 g2` with the genes in rows 1 and 2 and
no threshold is accepted with `x_coord = 1`, `y_coord = 2`. -/
theorem C15_gene_rows_coordinate_check_witness :
    1 ≤ ematrix3.getGeneCoord "g1" ∧ 1 ≤ ematrix3.getGeneCoord "g2" ∧
    argsGenes.th = CFloat.finite 0 0 ∧
    argsGenes.construct (fun _ => some ematrix3) =
      Except.ok { argsGenes with x_coord := 1, y_coord := 2 } :=
  ⟨by decide, by decide, rfl,
    (C15_gene_rows_coordinate_check argsGenes (fun _ => some ematrix3) ematrix3 "g1" "g2"
      rfl rfl rfl rfl).1 (by decide) (by decide)⟩

end RMTGeneNet
